import Mathlib

/-!
Verification of the speedread repository (RSVP reader) against its
natural-language specification.

Strings from the TypeScript sources are embedded as lists of characters
(`Str := List Char`); JavaScript numbers that hold integers are embedded
as `Int` (or `Nat` where the source value is provably non-negative).
Functions present under `src/` are translated directly from the source;
functions of this repository that are referenced but whose file is not
among the provided sources (the tokenizer `src/core/tokenizer.ts`, the
ORP splitter `src/core/orp.ts`, and the reader engine
`src/ui/hooks/useReaderEngine.ts`) are modelled from the specification
and are marked as such in their doc comments.
-/

/-- Character-list embedding of a JavaScript string. -/
abbrev Str := List Char

/-- Token type tag from `src/core/types.ts`: `type: 'word' | 'break'`.
The `break` variant is named `brk` because `break` is a reserved word. -/
inductive TokType where
  | word : TokType
  | brk : TokType
deriving DecidableEq, Repr

/-- The `Token` interface from `src/core/types.ts`. `orpIndex` is a
JavaScript number holding an integer, embedded as `Int`. -/
structure Token where
  id : Str
  display : Str
  core : Str
  type : TokType
  orpIndex : Int
  charStart : Nat
  charEnd : Nat
deriving DecidableEq, Repr

/-- The three-part split `{ left, orp, right }` returned by the ORP
splitter and consumed by `WordRenderer`. -/
structure OrpParts where
  left : Str
  orp : Str
  right : Str
deriving DecidableEq, Repr

/-- Modelled from the spec: `getOrpLetter` in `src/core/orp.ts` is not
among the provided sources (only its caller `src/ui/WordRenderer.tsx`
is).  Per spec section 4.2, `splitAtOrp(display, orpIndex)` returns
`left`, the single grapheme `orp` at `orpIndex`, and `right`, with the
index clamped into `[0, display.length - 1]` before splitting so that an
out-of-range index never throws. -/
def splitAtOrp (display : Str) (orpIndex : Int) : OrpParts :=
  if display = [] then ⟨[], [], []⟩
  else
    let i := (max 0 (min orpIndex ((display.length : Int) - 1))).toNat
    ⟨display.take i, (display.drop i).take 1, display.drop (i + 1)⟩

/-- From `src/ui/WordRenderer.tsx` lines 21-30: for a null token or a
`break` token all three parts are empty strings; otherwise the parts
come from `getOrpLetter(token.display, token.orpIndex)`. -/
def wordRendererParts (token : Option Token) : OrpParts :=
  match token with
  | none => ⟨[], [], []⟩
  | some t =>
      if t.type = TokType.brk then ⟨[], [], []⟩
      else splitAtOrp t.display t.orpIndex

theorem clampedIdx_lt_length (idx : Int) (n : Nat) (h : 0 < n) :
    (max 0 (min idx ((n : Int) - 1))).toNat < n := by
  omega

theorem take_one_drop_eq_getElem (l : Str) (i : Nat) (h : i < l.length) :
    (l.drop i).take 1 = [l.get ⟨i, h⟩] := by
  rw [List.drop_eq_getElem_cons h]
  rfl

/-- C1.  For every word token produced by the Tokenizer (per the spec
invariant, its `orpIndex` is in range), `splitAtOrp(display, orpIndex)`
returns `left` = everything before position `orpIndex`, `orp` = exactly
the single grapheme at `orpIndex`, `right` = everything after; for any
non-empty display and any (possibly out-of-range) index the index is
clamped into range, never throwing, and the parts satisfy
`left ++ orp ++ right = display` with `orp` a single grapheme; for a
`break` token or a null token all three parts are empty strings. -/
theorem splitAtOrp_correct :
    (∀ t : Token, t.type = TokType.word → 0 ≤ t.orpIndex →
      ∀ h : t.orpIndex.toNat < t.display.length,
      splitAtOrp t.display t.orpIndex =
        ⟨t.display.take t.orpIndex.toNat,
         [t.display.get ⟨t.orpIndex.toNat, h⟩],
         t.display.drop (t.orpIndex.toNat + 1)⟩) ∧
    (∀ (d : Str) (i : Int), d ≠ [] →
      (splitAtOrp d i).left ++ (splitAtOrp d i).orp ++ (splitAtOrp d i).right = d ∧
      (splitAtOrp d i).orp.length = 1) ∧
    (wordRendererParts none = ⟨[], [], []⟩ ∧
     ∀ t : Token, t.type = TokType.brk → wordRendererParts (some t) = ⟨[], [], []⟩) := by
  refine ⟨?_, ?_, ?_, ?_⟩
  · intro t _ hnn h
    have hd : t.display ≠ [] := by
      intro he
      rw [he] at h
      simp at h
    have hi : (max 0 (min t.orpIndex ((t.display.length : Int) - 1))).toNat
        = t.orpIndex.toNat := by
      omega
    simp only [splitAtOrp, hd, if_false, hi]
    rw [take_one_drop_eq_getElem t.display t.orpIndex.toNat h]
  · intro d i hd
    have hlen : 0 < d.length := List.length_pos.mpr hd
    have hlt : (max 0 (min i ((d.length : Int) - 1))).toNat < d.length :=
      clampedIdx_lt_length i d.length hlen
    simp only [splitAtOrp, hd, if_false]
    constructor
    · rw [take_one_drop_eq_getElem d _ hlt]
      have hsplit : d.take (max 0 (min i ((d.length : Int) - 1))).toNat ++
          d.drop (max 0 (min i ((d.length : Int) - 1))).toNat = d :=
        List.take_append_drop _ d
      rw [List.drop_eq_getElem_cons hlt] at hsplit
      simp only [List.append_assoc, List.singleton_append]
      exact hsplit
    · rw [take_one_drop_eq_getElem d _ hlt]
      rfl
  · rfl
  · intro t ht
    simp [wordRendererParts, ht]

/-- Sample word token used to witness the theorems about word tokens. -/
def sampleWordTok : Token :=
  { id := "0".data, display := "cat.".data, core := "cat".data,
    type := TokType.word, orpIndex := 1, charStart := 0, charEnd := 4 }

/-- Sample break token. -/
def sampleBreakTok : Token :=
  { id := "1".data, display := [], core := [],
    type := TokType.brk, orpIndex := 0, charStart := 4, charEnd := 6 }

theorem splitAtOrp_correct_witness :
    splitAtOrp "cat.".data (1 : Int) =
      ⟨"c".data, "a".data, "t.".data⟩ ∧
    ((splitAtOrp "cat.".data 99).left ++ (splitAtOrp "cat.".data 99).orp ++
        (splitAtOrp "cat.".data 99).right = "cat.".data ∧
      (splitAtOrp "cat.".data 99).orp.length = 1) ∧
    wordRendererParts (some sampleBreakTok) = ⟨[], [], []⟩ := by
  refine ⟨?_, ?_, ?_⟩
  · have h := splitAtOrp_correct.1 sampleWordTok rfl (by decide) (by decide)
    exact h.trans (by decide)
  · exact splitAtOrp_correct.2.1 "cat.".data 99 (by decide)
  · exact splitAtOrp_correct.2.2.2 sampleBreakTok rfl

/-! ## Constants and settings (`src/core/types.ts`) -/

/-- `WPM_MIN = 50` from `src/core/types.ts` line 61. -/
def WPM_MIN : Int := 50

/-- `WPM_MAX = 1000` from `src/core/types.ts` line 62. -/
def WPM_MAX : Int := 1000

/-- `WPM_STEP = 50` from `src/core/types.ts` line 63. -/
def WPM_STEP : Int := 50

/-- `ReadingMode` from `src/core/types.ts`. -/
inductive ReadingMode where
  | autoplay : ReadingMode
  | holdSpace : ReadingMode
deriving DecidableEq, Repr

/-- `ReaderState` from `src/core/types.ts`. -/
inductive ReaderStateK where
  | idle : ReaderStateK
  | playing : ReaderStateK
  | paused : ReaderStateK
deriving DecidableEq, Repr

/-- `ReaderSettings` from `src/core/types.ts`.  `softRewindWords` is an
integer that is always non-negative (spec section 3), embedded as `Nat`. -/
structure ReaderSettings where
  wpm : Int
  mode : ReadingMode
  punctuationPause : Bool
  softRewind : Bool
  softRewindWords : Nat
deriving DecidableEq, Repr

/-- `DEFAULT_SETTINGS` from `src/core/types.ts`. -/
def DEFAULT_SETTINGS : ReaderSettings :=
  { wpm := 300, mode := ReadingMode.autoplay, punctuationPause := true,
    softRewind := true, softRewindWords := 5 }

/-- C7.  The constants exposed for validation have exactly the values
`WPM_MIN = 50`, `WPM_MAX = 1000` and `WPM_STEP = 50`. -/
theorem wpm_constants_values : WPM_MIN = 50 ∧ WPM_MAX = 1000 ∧ WPM_STEP = 50 :=
  ⟨rfl, rfl, rfl⟩

/-! ## Reader engine

Modelled from the spec: the reader engine lives in
`src/ui/hooks/useReaderEngine.ts`, which is not among the provided
sources (only its callers `ReaderView.tsx` and `Controls.tsx` are).
The state machine below follows spec sections 4.3, 6 and 7.  Timer
bookkeeping is not observable in the snapshot and is omitted; every
command is a total function (no command throws). -/

/-- Modelled from the spec: the engine state (spec section 3, "Engine
snapshot", plus the immutable token sequence it owns). -/
structure Engine where
  tokens : List Token
  state : ReaderStateK
  currentIndex : Int
  settings : ReaderSettings
deriving DecidableEq, Repr

/-- Modelled from the spec: clamp the current index to `[0, length-1]`
(spec section 4.3, `seekTo`/`stepForward`/`stepBackward`). -/
def Engine.clampIdx (e : Engine) (i : Int) : Int :=
  max 0 (min i ((e.tokens.length : Int) - 1))

/-- Modelled from the spec: engine construction from a `Token[]` and an
initial position (spec section 6).  With an empty token sequence the
engine starts and stays `idle` with `currentIndex = 0` (spec section 7). -/
def Engine.init (tokens : List Token) (initialPosition : Int) : Engine :=
  { tokens := tokens,
    state := ReaderStateK.idle,
    currentIndex :=
      if tokens.isEmpty then 0
      else max 0 (min initialPosition ((tokens.length : Int) - 1)),
    settings := DEFAULT_SETTINGS }

/-- Modelled from the spec: `play()` (spec section 4.3): if resuming
from `paused` with `softRewind` enabled, first moves `currentIndex` back
by `min(softRewindWords, currentIndex)` (never below 0); transitions to
`playing`.  On an empty token sequence every such command is a no-op
(spec section 7). -/
def Engine.play (e : Engine) : Engine :=
  if e.tokens.isEmpty then e
  else
    let idx :=
      if e.state = ReaderStateK.paused ∧ e.settings.softRewind then
        e.currentIndex - min (e.settings.softRewindWords : Int) e.currentIndex
      else e.currentIndex
    { e with state := ReaderStateK.playing, currentIndex := idx }

/-- Modelled from the spec: `pause()` transitions `playing` to `paused`
without moving `currentIndex`; no-op otherwise and on an empty sequence. -/
def Engine.pause (e : Engine) : Engine :=
  if e.tokens.isEmpty then e
  else if e.state = ReaderStateK.playing then { e with state := ReaderStateK.paused }
  else e

/-- Modelled from the spec: `togglePlayPause()` is `play()` if not
`playing`, else `pause()`. -/
def Engine.togglePlayPause (e : Engine) : Engine :=
  if e.state = ReaderStateK.playing then e.pause else e.play

/-- Modelled from the spec: `holdStart()` is `play()` but never applies
soft rewind (deadman-switch semantics). -/
def Engine.holdStart (e : Engine) : Engine :=
  if e.tokens.isEmpty then e
  else { e with state := ReaderStateK.playing }

/-- Modelled from the spec: `holdEnd()` always lands in `paused`
regardless of prior transient state; no-op on an empty sequence. -/
def Engine.holdEnd (e : Engine) : Engine :=
  if e.tokens.isEmpty then e
  else { e with state := ReaderStateK.paused }

/-- Modelled from the spec: `stepForward(n)` moves `currentIndex` by
`+n` clamped to `[0, length-1]`; does not change `state`. -/
def Engine.stepForward (e : Engine) (n : Int) : Engine :=
  if e.tokens.isEmpty then e
  else { e with currentIndex := e.clampIdx (e.currentIndex + n) }

/-- Modelled from the spec: `stepBackward(n)` moves `currentIndex` by
`-n` clamped to `[0, length-1]`; does not change `state`. -/
def Engine.stepBackward (e : Engine) (n : Int) : Engine :=
  if e.tokens.isEmpty then e
  else { e with currentIndex := e.clampIdx (e.currentIndex - n) }

/-- Modelled from the spec: `seekTo(index)` sets `currentIndex` to
`clamp(index, 0, length-1)`. -/
def Engine.seekTo (e : Engine) (i : Int) : Engine :=
  if e.tokens.isEmpty then e
  else { e with currentIndex := e.clampIdx i }

/-- Modelled from the spec: the wpm clamp/snap rule of `adjustWpm` and
`setWpm` (spec section 4.3): `clamp(round(v / 50) * 50, 50, 1000)`.
`Math.round(v / 50)` for an integer `v` equals `⌊(v + 25) / 50⌋`,
embedded with flooring integer division `Int.fdiv`. -/
def snapWpm (v : Int) : Int :=
  max WPM_MIN (min WPM_MAX (Int.fdiv (v + 25) 50 * 50))

/-- Modelled from the spec: `adjustWpm(delta)`. -/
def Engine.adjustWpm (e : Engine) (delta : Int) : Engine :=
  { e with settings := { e.settings with wpm := snapWpm (e.settings.wpm + delta) } }

/-- Modelled from the spec: `setWpm(value)`: same clamp/snap rule on the
absolute value. -/
def Engine.setWpm (e : Engine) (value : Int) : Engine :=
  { e with settings := { e.settings with wpm := snapWpm value } }

/-! ## C2: the wpm invariant -/

/-- A speed-changing command: `adjustWpm(delta)` or `setWpm(value)`. -/
inductive WpmCmd where
  | adjust (delta : Int) : WpmCmd
  | set (value : Int) : WpmCmd
deriving DecidableEq, Repr

def applyWpmCmd : WpmCmd → Engine → Engine
  | WpmCmd.adjust d, e => e.adjustWpm d
  | WpmCmd.set v, e => e.setWpm v

def applyWpmCmds (cmds : List WpmCmd) (e : Engine) : Engine :=
  cmds.foldl (fun e c => applyWpmCmd c e) e

theorem snapWpm_good (v : Int) :
    50 ∣ snapWpm v ∧ 50 ≤ snapWpm v ∧ snapWpm v ≤ 1000 := by
  unfold snapWpm WPM_MIN WPM_MAX
  generalize Int.fdiv (v + 25) 50 = k
  omega

theorem applyWpmCmd_good (c : WpmCmd) (e : Engine) :
    50 ∣ (applyWpmCmd c e).settings.wpm ∧
    50 ≤ (applyWpmCmd c e).settings.wpm ∧
    (applyWpmCmd c e).settings.wpm ≤ 1000 := by
  cases c <;> exact snapWpm_good _

theorem applyWpmCmds_preserves (cmds : List WpmCmd) (e : Engine)
    (h : 50 ∣ e.settings.wpm ∧ 50 ≤ e.settings.wpm ∧ e.settings.wpm ≤ 1000) :
    50 ∣ (applyWpmCmds cmds e).settings.wpm ∧
    50 ≤ (applyWpmCmds cmds e).settings.wpm ∧
    (applyWpmCmds cmds e).settings.wpm ≤ 1000 := by
  induction cmds generalizing e with
  | nil => exact h
  | cons c rest ih => exact ih (applyWpmCmd c e) (applyWpmCmd_good c e)

/-- C2.  Each `adjustWpm`/`setWpm` call applies
`wpm = clamp(round((wpm + delta) / 50) * 50, 50, 1000)` (for `setWpm`
the same rule on the absolute value), and after any non-empty sequence
of such calls, from any starting settings, `settings.wpm` is a multiple
of 50 lying within `[50, 1000]`. -/
theorem wpm_invariant :
    (∀ (e : Engine) (d : Int),
      (e.adjustWpm d).settings.wpm =
        max 50 (min 1000 (Int.fdiv (e.settings.wpm + d + 25) 50 * 50))) ∧
    (∀ (e : Engine) (v : Int),
      (e.setWpm v).settings.wpm =
        max 50 (min 1000 (Int.fdiv (v + 25) 50 * 50))) ∧
    (∀ (e : Engine) (cmds : List WpmCmd), cmds ≠ [] →
      50 ∣ (applyWpmCmds cmds e).settings.wpm ∧
      50 ≤ (applyWpmCmds cmds e).settings.wpm ∧
      (applyWpmCmds cmds e).settings.wpm ≤ 1000) := by
  refine ⟨fun e d => rfl, fun e v => rfl, ?_⟩
  intro e cmds hne
  match cmds with
  | c :: rest =>
      show 50 ∣ (applyWpmCmds rest (applyWpmCmd c e)).settings.wpm ∧ _
      exact applyWpmCmds_preserves rest (applyWpmCmd c e) (applyWpmCmd_good c e)

/-- A concrete engine used to witness engine theorems: eleven word
tokens, paused at index 10, default settings. -/
def pausedEngine10 : Engine :=
  { tokens := List.replicate 11 sampleWordTok,
    state := ReaderStateK.paused,
    currentIndex := 10,
    settings := DEFAULT_SETTINGS }

theorem wpm_invariant_witness :
    50 ∣ (applyWpmCmds [WpmCmd.adjust 30, WpmCmd.set 2024] pausedEngine10).settings.wpm ∧
    50 ≤ (applyWpmCmds [WpmCmd.adjust 30, WpmCmd.set 2024] pausedEngine10).settings.wpm ∧
    (applyWpmCmds [WpmCmd.adjust 30, WpmCmd.set 2024] pausedEngine10).settings.wpm ≤ 1000 :=
  wpm_invariant.2.2 pausedEngine10 [WpmCmd.adjust 30, WpmCmd.set 2024] (by decide)

/-! ## C4: soft rewind on resume -/

/-- A concrete engine paused at index 3 (same tokens and settings as
`pausedEngine10`). -/
def pausedEngine3 : Engine :=
  { pausedEngine10 with currentIndex := 3 }

/-- C4.  With `softRewind` enabled, `play()` from `paused` first moves
`currentIndex` back by exactly `min(softRewindWords, currentIndex)`, so
the index never drops below 0; pausing at index 10 with
`softRewindWords = 5` then playing yields index 5, and pausing at index
3 yields index 0. -/
theorem softRewind_play :
    (∀ e : Engine, e.settings.softRewind = true → e.state = ReaderStateK.paused →
      e.tokens ≠ [] →
      (e.play.currentIndex =
        e.currentIndex - min (e.settings.softRewindWords : Int) e.currentIndex ∧
       (0 ≤ e.currentIndex → 0 ≤ e.play.currentIndex) ∧
       e.play.state = ReaderStateK.playing)) ∧
    pausedEngine10.play.currentIndex = 5 ∧
    pausedEngine3.play.currentIndex = 0 := by
  refine ⟨?_, by decide, by decide⟩
  intro e hsr hp hne
  have hemp : e.tokens.isEmpty = false := by
    cases h : e.tokens with
    | nil => exact absurd h hne
    | cons a l => rfl
  refine ⟨?_, ?_, ?_⟩
  · simp [Engine.play, hemp, hp, hsr]
  · intro h0
    simp only [Engine.play, hemp, Bool.false_eq_true, if_false, hp, hsr, and_self, if_true]
    omega
  · simp [Engine.play, hemp]

theorem softRewind_play_witness :
    (pausedEngine10.play.currentIndex =
      pausedEngine10.currentIndex -
        min (pausedEngine10.settings.softRewindWords : Int) pausedEngine10.currentIndex ∧
     (0 ≤ pausedEngine10.currentIndex → 0 ≤ pausedEngine10.play.currentIndex) ∧
     pausedEngine10.play.state = ReaderStateK.playing) :=
  softRewind_play.1 pausedEngine10 rfl rfl (by decide)

/-! ## C5: an engine over an empty token sequence -/

/-- The stepping, seeking and play commands of the engine's command
surface (spec section 4.3). -/
inductive EngineCmd where
  | play : EngineCmd
  | pause : EngineCmd
  | togglePlayPause : EngineCmd
  | holdStart : EngineCmd
  | holdEnd : EngineCmd
  | stepForward (n : Int) : EngineCmd
  | stepBackward (n : Int) : EngineCmd
  | seekTo (i : Int) : EngineCmd
deriving DecidableEq, Repr

def applyEngineCmd : EngineCmd → Engine → Engine
  | EngineCmd.play, e => e.play
  | EngineCmd.pause, e => e.pause
  | EngineCmd.togglePlayPause, e => e.togglePlayPause
  | EngineCmd.holdStart, e => e.holdStart
  | EngineCmd.holdEnd, e => e.holdEnd
  | EngineCmd.stepForward n, e => e.stepForward n
  | EngineCmd.stepBackward n, e => e.stepBackward n
  | EngineCmd.seekTo i, e => e.seekTo i

/-- C5.  An engine constructed with an empty token sequence has
`state = idle` and `currentIndex = 0`, and every stepping, seeking and
play command leaves it entirely unchanged (all commands are total
functions, so none throws). -/
theorem empty_engine_noop :
    ∀ (pos : Int) (c : EngineCmd),
      (Engine.init [] pos).state = ReaderStateK.idle ∧
      (Engine.init [] pos).currentIndex = 0 ∧
      applyEngineCmd c (Engine.init [] pos) = Engine.init [] pos := by
  intro pos c
  refine ⟨rfl, rfl, ?_⟩
  cases c <;>
    simp [applyEngineCmd, Engine.init, Engine.play, Engine.pause, Engine.togglePlayPause,
      Engine.holdStart, Engine.holdEnd, Engine.stepForward, Engine.stepBackward, Engine.seekTo]

/-! ## C3: per-token delay computation -/

/-- Sentence terminators `. ! ?` (spec section 4.3). -/
def isSentenceTerminator (c : Char) : Bool :=
  c = '.' || c = '!' || c = '?'

/-- Clause separators `, ; :` (spec section 4.3). -/
def isClauseSeparator (c : Char) : Bool :=
  c = ',' || c = ';' || c = ':'

/-- Modelled from the spec: the per-token delay computed by the reader
engine in `src/ui/hooks/useReaderEngine.ts` (not among the provided
sources).  `base = 60000 / wpm` milliseconds; a word token gets `base`,
plus `1.0 * base` when `punctuationPause` is on and `display` ends with
a sentence terminator, plus `0.5 * base` when it ends with a clause
separator; a break token always gets `1.5 * base`.  JavaScript number
arithmetic on these values is exact rational arithmetic, embedded in
`ℚ`. -/
def computeDelayMs (t : Token) (s : ReaderSettings) : ℚ :=
  let base : ℚ := 60000 / (s.wpm : ℚ)
  match t.type with
  | TokType.brk => 3 / 2 * base
  | TokType.word =>
      match t.display.getLast? with
      | some c =>
          if s.punctuationPause && isSentenceTerminator c then base + base
          else if s.punctuationPause && isClauseSeparator c then base + base / 2
          else base
      | none => base

/-- The scenario settings: `wpm = 300`, `punctuationPause = true`. -/
def settings300 : ReaderSettings :=
  { wpm := 300, mode := ReadingMode.autoplay, punctuationPause := true,
    softRewind := true, softRewindWords := 5 }

/-- The token `"cat"` (no trailing punctuation). -/
def catTok : Token :=
  { id := "2".data, display := "cat".data, core := "cat".data,
    type := TokType.word, orpIndex := 1, charStart := 0, charEnd := 3 }

/-- C3.  The per-token delay is `base = 60000 / wpm`; a word token's
delay is `base`, plus `1.0 * base` when `punctuationPause` is on and
`display` ends with one of `. ! ?`, plus `0.5 * base` when it ends with
one of `, ; :`; a break token's delay is always `1.5 * base` regardless
of `punctuationPause`.  At `wpm = 300` with `punctuationPause = true`,
`"cat."` gets 400 ms and `"cat"` gets 200 ms. -/
theorem delay_computation :
    (∀ (t : Token) (s : ReaderSettings) (c : Char),
      t.type = TokType.word → t.display.getLast? = some c →
      s.punctuationPause = true → isSentenceTerminator c = true →
      computeDelayMs t s = 60000 / (s.wpm : ℚ) + 60000 / (s.wpm : ℚ)) ∧
    (∀ (t : Token) (s : ReaderSettings) (c : Char),
      t.type = TokType.word → t.display.getLast? = some c →
      s.punctuationPause = true → isClauseSeparator c = true →
      computeDelayMs t s = 60000 / (s.wpm : ℚ) + 60000 / (s.wpm : ℚ) / 2) ∧
    (∀ (t : Token) (s : ReaderSettings),
      t.type = TokType.word →
      (s.punctuationPause = false ∨
        (∀ c : Char, t.display.getLast? = some c →
          isSentenceTerminator c = false ∧ isClauseSeparator c = false)) →
      computeDelayMs t s = 60000 / (s.wpm : ℚ)) ∧
    (∀ (t : Token) (s : ReaderSettings),
      t.type = TokType.brk →
      computeDelayMs t s = 3 / 2 * (60000 / (s.wpm : ℚ))) ∧
    computeDelayMs sampleWordTok settings300 = 400 ∧
    computeDelayMs catTok settings300 = 200 := by
  refine ⟨?_, ?_, ?_, ?_, ?_, ?_⟩
  · intro t s c ht hlast hp hterm
    simp [computeDelayMs, ht, hlast, hp, hterm]
  · intro t s c ht hlast hp hcl
    have hterm : isSentenceTerminator c = false := by
      unfold isSentenceTerminator
      unfold isClauseSeparator at hcl
      simp only [Bool.or_eq_true, decide_eq_true_eq] at hcl
      rcases hcl with (h | h) | h <;> subst h <;> decide
    simp [computeDelayMs, ht, hlast, hp, hterm, hcl]
  · intro t s ht hcase
    rcases hcase with hp | hnone
    · cases hlast : t.display.getLast? with
      | none => simp [computeDelayMs, ht, hlast]
      | some c => simp [computeDelayMs, ht, hlast, hp]
    · cases hlast : t.display.getLast? with
      | none => simp [computeDelayMs, ht, hlast]
      | some c =>
          obtain ⟨h1, h2⟩ := hnone c hlast
          simp [computeDelayMs, ht, hlast, h1, h2]
  · intro t s ht
    simp [computeDelayMs, ht]
  · show computeDelayMs sampleWordTok settings300 = 400
    norm_num [computeDelayMs, sampleWordTok, settings300, isSentenceTerminator,
      isClauseSeparator]
  · norm_num [computeDelayMs, catTok, settings300, isSentenceTerminator, isClauseSeparator]
    simp

theorem delay_computation_witness :
    computeDelayMs sampleWordTok settings300 =
      60000 / ((settings300.wpm : Int) : ℚ) + 60000 / ((settings300.wpm : Int) : ℚ) ∧
    computeDelayMs catTok settings300 = 60000 / ((settings300.wpm : Int) : ℚ) := by
  constructor
  · exact delay_computation.1 sampleWordTok settings300 '.' rfl (by decide) rfl (by decide)
  · refine delay_computation.2.2.1 catTok settings300 rfl (Or.inr ?_)
    intro c hc
    have : c = 't' := by
      have hd : catTok.display.getLast? = some 't' := by decide
      rw [hd] at hc
      exact (Option.some.injEq _ _).mp hc.symm
    subst this
    exact ⟨by decide, by decide⟩

/-! ## C10: `getCurrentWordIndex` (`src/ui/TextFlow.tsx` lines 188-196) -/

/-- From `src/ui/TextFlow.tsx`: counts the word tokens at indices
`i < currentIndex` (the loop also stops at `tokens.length`, which
`List.take` mirrors); returns that count if the current token is a word,
else `Math.max(0, wordIndex - 1)`.  The result is a JavaScript number,
embedded as `Int` so that the intermediate `wordIndex - 1` keeps its
sign. -/
def getCurrentWordIndex (tokens : List Token) (currentIndex : Nat) : Int :=
  let wordIndex : Int :=
    ((tokens.take currentIndex).countP (fun t => t.type == TokType.word) : Int)
  match tokens.get? currentIndex with
  | some t =>
      if t.type = TokType.word then wordIndex else max 0 (wordIndex - 1)
  | none => max 0 (wordIndex - 1)

theorem countP_take_le (tokens : List Token) (i : Nat) :
    (tokens.take i).countP (fun t => t.type == TokType.word) ≤
      tokens.countP (fun t => t.type == TokType.word) := by
  conv_rhs => rw [← List.take_append_drop i tokens]
  rw [List.countP_append]
  omega

/-- C10.  For every token list and every in-range index,
`getCurrentWordIndex` is non-negative and never exceeds the number of
word tokens in the list, and when the current token is a word it equals
exactly the count of word tokens strictly before `currentIndex`. -/
theorem getCurrentWordIndex_bounds :
    ∀ (tokens : List Token) (i : Nat) (h : i < tokens.length),
      0 ≤ getCurrentWordIndex tokens i ∧
      getCurrentWordIndex tokens i ≤
        (tokens.countP (fun t => t.type == TokType.word) : Int) ∧
      ((tokens.get ⟨i, h⟩).type = TokType.word →
        getCurrentWordIndex tokens i =
          ((tokens.take i).countP (fun t => t.type == TokType.word) : Int)) := by
  intro tokens i h
  have hget : tokens.get? i = some (tokens.get ⟨i, h⟩) := List.get?_eq_get h
  have hle := countP_take_le tokens i
  simp only [getCurrentWordIndex, hget]
  by_cases hw : (tokens.get ⟨i, h⟩).type = TokType.word
  · simp only [if_pos hw]
    refine ⟨by omega, by omega, fun _ => trivial⟩
  · simp only [if_neg hw]
    refine ⟨by omega, by omega, fun hcontra => absurd hcontra hw⟩

/-- Token list for the C10 witness: word, break, word. -/
def sampleTokens3 : List Token := [sampleWordTok, sampleBreakTok, catTok]

theorem getCurrentWordIndex_bounds_witness :
    0 ≤ getCurrentWordIndex sampleTokens3 2 ∧
    getCurrentWordIndex sampleTokens3 2 ≤
      (sampleTokens3.countP (fun t => t.type == TokType.word) : Int) ∧
    ((sampleTokens3.get ⟨2, by decide⟩).type = TokType.word →
      getCurrentWordIndex sampleTokens3 2 =
        ((sampleTokens3.take 2).countP (fun t => t.type == TokType.word) : Int)) :=
  getCurrentWordIndex_bounds sampleTokens3 2 (by decide)

/-! ## String utilities shared by the ingest and storage embeddings -/

/-- The JavaScript whitespace class used by `String.prototype.trim` and
by whitespace-delimited splitting: ASCII blanks, line terminators, and
the common Unicode spaces (NBSP, BOM, LS, PS). -/
def isJsWhitespace (c : Char) : Bool :=
  c = ' ' || c = '\t' || c = '\n' || c = '\r' || c = '\x0b' || c = '\x0c' ||
  c = ' ' || c = ' ' || c = ' ' || c = '﻿'

/-- Embedding of `String.prototype.trim`: strip leading and trailing
whitespace. -/
def jsTrim (cs : Str) : Str :=
  ((cs.dropWhile isJsWhitespace).reverse.dropWhile isJsWhitespace).reverse

/-- Embedding of `String.prototype.split` with a single-character
separator (as called with `'.'` in `detectFormat` and `'&'`, `'='` in
the URL query embedding).  Like JavaScript, splitting the empty string
yields `[""]`. -/
def splitOnChar (sep : Char) : Str → List Str
  | [] => [[]]
  | c :: rest =>
      if c = sep then [] :: splitOnChar sep rest
      else
        match splitOnChar sep rest with
        | [] => [[c]]
        | seg :: segs => (c :: seg) :: segs

theorem splitOnChar_ne_nil (sep : Char) (l : Str) : splitOnChar sep l ≠ [] := by
  induction l with
  | nil => simp [splitOnChar]
  | cons c rest ih =>
      unfold splitOnChar
      by_cases h : c = sep
      · simp [h]
      · simp only [h, if_false]
        cases splitOnChar sep rest with
        | nil => simp
        | cons seg segs => simp

theorem splitOnChar_of_not_mem (sep : Char) (l : Str) (h : sep ∉ l) :
    splitOnChar sep l = [l] := by
  induction l with
  | nil => rfl
  | cons c rest ih =>
      have hc : ¬ c = sep := fun he => h (he ▸ List.mem_cons_self c rest)
      have hrest : sep ∉ rest := fun hm => h (List.mem_cons_of_mem c hm)
      unfold splitOnChar
      simp only [hc, if_false, ih hrest]

theorem splitOnChar_cons_pos (sep : Char) (rest : Str) :
    splitOnChar sep (sep :: rest) = [] :: splitOnChar sep rest := by
  conv_lhs => rw [splitOnChar]
  simp

theorem splitOnChar_cons_neg (sep c : Char) (rest : Str) (h : ¬ c = sep) :
    splitOnChar sep (c :: rest) =
      (c :: (splitOnChar sep rest).headD []) :: (splitOnChar sep rest).tail := by
  conv_lhs => rw [splitOnChar]
  simp only [h, if_false]
  obtain ⟨seg, segs, hs⟩ := List.exists_cons_of_ne_nil (splitOnChar_ne_nil sep rest)
  rw [hs]
  rfl

theorem splitOnChar_append (sep : Char) (xs ys : Str) :
    splitOnChar sep (xs ++ sep :: ys) = splitOnChar sep xs ++ splitOnChar sep ys := by
  induction xs with
  | nil =>
      rw [List.nil_append, splitOnChar_cons_pos]
      rfl
  | cons c rest ih =>
      by_cases h : c = sep
      · subst h
        rw [List.cons_append, splitOnChar_cons_pos, splitOnChar_cons_pos, ih]
        rfl
      · rw [List.cons_append, splitOnChar_cons_neg sep c _ h, ih,
          splitOnChar_cons_neg sep c rest h]
        cases hs : splitOnChar sep rest with
        | nil => exact absurd hs (splitOnChar_ne_nil sep rest)
        | cons seg segs => simp [hs]

theorem getLastD_append_singleton {α : Type} (l : List α) (y d : α) :
    (l ++ [y]).getLastD d = y := by
  induction l with
  | nil => rfl
  | cons a rest ih =>
      rw [List.cons_append]
      cases rest with
      | nil => rfl
      | cons b rest2 => simpa using ih

/-! ## C6: tokenize / ingest validation

`ingestText` is translated from `src/ingest/ingest.ts` lines 20-27 and
`createDocument` from `src/storage/documentsRepo.ts` lines 6-35.  The
tokenizer they call (`tokenize` in `src/core/tokenizer.ts`) is not among
the provided sources and is modelled from spec section 4.1. -/

/-- The error kind raised for empty or whitespace-only input
(`ValidationError` in the spec; `Error('No text content provided')` at
the `ingestText` call site). -/
inductive IngestError where
  | validationError : IngestError
deriving DecidableEq, Repr

/-- Modelled from the spec (section 4.1, step 4): `core` is the display
slice with leading and trailing non-alphanumeric characters stripped. -/
def stripCore (w : Str) : Str :=
  (((w.dropWhile fun c => !c.isAlphanum).reverse.dropWhile fun c => !c.isAlphanum)).reverse

/-- Modelled from the spec (section 4.1, step 6): the ORP index from the
core length `L`: 0 when `L ≤ 1`, otherwise `round(L * 0.35)` shifted by
the length of the leading punctuation of `display` and clamped to
`[0, display.length - 1]`.  `round(L * 0.35) = ⌊(7L + 10) / 20⌋`. -/
def computeOrpIndex (display : Str) : Int :=
  let core := stripCore display
  let L := core.length
  if L ≤ 1 then 0
  else
    let lead := (display.takeWhile fun c => !c.isAlphanum).length
    max 0 (min ((lead : Int) + ((7 * L + 10) / 20 : Nat)) ((display.length : Int) - 1))

/-- Modelled from the spec (section 4.1): line-ending normalization,
CR LF and lone CR become LF. -/
def normalizeText : Str → Str
  | [] => []
  | '\r' :: '\n' :: rest => '\n' :: normalizeText rest
  | '\r' :: rest => '\n' :: normalizeText rest
  | c :: rest => c :: normalizeText rest

/-- Decimal digit characters for sequence-number token ids and for the
embedding of JavaScript number-to-string conversion. -/
def digitChar : Nat → Char
  | 0 => '0'
  | 1 => '1'
  | 2 => '2'
  | 3 => '3'
  | 4 => '4'
  | 5 => '5'
  | 6 => '6'
  | 7 => '7'
  | 8 => '8'
  | _ => '9'

/-- Decimal representation of a natural number by fuel-bounded repeated
division (the embedding of JavaScript `Number.prototype.toString` for a
non-negative integer).  The fuel exceeds the digit count, so the base
case of exhausted fuel is unreachable; structural recursion on the fuel
keeps the function kernel-computable. -/
def natToDecimalAux : Nat → Nat → Str
  | 0, _ => []
  | fuel + 1, n =>
      if n < 10 then [digitChar n]
      else natToDecimalAux fuel (n / 10) ++ [digitChar (n % 10)]

def natToDecimal (n : Nat) : Str := natToDecimalAux (n + 1) n

/-- Flush helper for `wordsWithPos`: the word accumulated so far (in
reverse) with its start offset. -/
def flushWord : Option (Nat × Str) → List (Str × Nat)
  | none => []
  | some (start, acc) => [(acc.reverse, start)]

/-- Modelled from the spec (section 4.1, step 2): split the normalized
text into whitespace-delimited words, recording each word's start
offset. -/
def wordsWithPosAux : Str → Nat → Option (Nat × Str) → List (Str × Nat)
  | [], _, cur => flushWord cur
  | c :: rest, pos, cur =>
      if isJsWhitespace c then
        flushWord cur ++ wordsWithPosAux rest (pos + 1) none
      else
        wordsWithPosAux rest (pos + 1)
          (some (match cur with
                 | none => (pos, [c])
                 | some (s, acc) => (s, c :: acc)))

def wordsWithPos (cs : Str) : List (Str × Nat) :=
  wordsWithPosAux cs 0 none

/-- Modelled from the spec (section 4.1, steps 4-6): a word token built
from its split word, with a running sequence number as id. -/
def mkWordToken (n : Nat) (w : Str) (start : Nat) : Token :=
  { id := natToDecimal n, display := w, core := stripCore w,
    type := TokType.word, orpIndex := computeOrpIndex w,
    charStart := start, charEnd := start + w.length }

/-- Modelled from the spec (section 4.1, step 3): a break token spanning
the gap between two paragraphs. -/
def mkBreakToken (n : Nat) (a b : Nat) : Token :=
  { id := natToDecimal n, display := [], core := [],
    type := TokType.brk, orpIndex := 0, charStart := a, charEnd := b }

/-- Number of newline characters in the normalized text between offsets
`a` and `b`; two or more mark a paragraph boundary (spec section 4.1,
step 1). -/
def newlinesBetween (norm : Str) (a b : Nat) : Nat :=
  ((norm.drop a).take (b - a)).countP fun c => c = '\n'

/-- Modelled from the spec (section 4.1, step 3): emit one word token
per split word, inserting a break token wherever the gap to the previous
word crosses a paragraph boundary. -/
def assembleTokens (norm : Str) : List (Str × Nat) → Nat → Option Nat → List Token
  | [], _, _ => []
  | (w, s) :: rest, n, prevEnd =>
      match prevEnd with
      | some e =>
          if 2 ≤ newlinesBetween norm e s then
            mkBreakToken n e s ::
              mkWordToken (n + 1) w s ::
                assembleTokens norm rest (n + 2) (some (s + w.length))
          else
            mkWordToken n w s :: assembleTokens norm rest (n + 1) (some (s + w.length))
      | none =>
          mkWordToken n w s :: assembleTokens norm rest (n + 1) (some (s + w.length))

/-- Modelled from the spec (section 4.1): `tokenize(rawText)` fails with
a `ValidationError` when `rawText` is empty or whitespace-only, and
otherwise returns the normalized full text with the token sequence. -/
def tokenize (rawText : Str) : Except IngestError (Str × List Token) :=
  if rawText = [] ∨ jsTrim rawText = [] then Except.error IngestError.validationError
  else
    let norm := normalizeText rawText
    Except.ok (norm, assembleTokens norm (wordsWithPos norm) 0 none)

/-- A document as assembled by `createDocument`
(`src/storage/documentsRepo.ts`).  The uuid and the two `Date.now()`
timestamps are environmental inputs and are not part of the model. -/
structure DocumentData where
  title : Str
  format : Str
  fullText : Str
  tokens : List Token
deriving DecidableEq, Repr

/-- From `src/storage/documentsRepo.ts` line 15: the document title is
the filename with its final extension removed
(`filename.replace(/\.[^/.]+$/, '')`). -/
def stripFinalExtension (filename : Str) : Str :=
  let rev := filename.reverse
  let seg := rev.takeWhile fun c => !(c = '.' || c = '/')
  match rev.drop seg.length with
  | '.' :: rem => if seg = [] then filename else rem.reverse
  | _ => filename

/-- From `src/storage/documentsRepo.ts` lines 6-35: `createDocument`
tokenizes the raw text and assembles the document record (uuid and
timestamps elided, and the IndexedDB writes are external effects). -/
def createDocument (filename : Str) (format : Str) (rawText : Str) :
    Except IngestError DocumentData :=
  match tokenize rawText with
  | Except.error e => Except.error e
  | Except.ok (fullText, tokens) =>
      Except.ok { title := stripFinalExtension filename, format := format,
                  fullText := fullText, tokens := tokens }

/-- From `src/ingest/ingest.ts` lines 20-27: `ingestText` throws when
the text is empty or `text.trim()` has length 0, and otherwise creates a
`txt` document.  The default title's timestamp suffix is environmental;
the model uses the fixed prefix. -/
def ingestText (text : Str) (title : Option Str) : Except IngestError DocumentData :=
  if text = [] ∨ (jsTrim text).length = 0 then Except.error IngestError.validationError
  else
    let documentTitle :=
      match title with
      | some t => if t = [] then "Pasted Text".data else t
      | none => "Pasted Text".data
    createDocument documentTitle "txt".data text

theorem jsTrim_eq_nil_iff (cs : Str) :
    jsTrim cs = [] ↔ ∀ c ∈ cs, isJsWhitespace c := by
  unfold jsTrim
  rw [List.reverse_eq_nil_iff, List.dropWhile_eq_nil_iff]
  constructor
  · intro h c hc
    rw [← List.takeWhile_append_dropWhile (p := isJsWhitespace) (l := cs)] at hc
    rcases List.mem_append.mp hc with hc | hc
    · exact List.mem_takeWhile_imp hc
    · exact h c (List.mem_reverse.mpr hc)
  · intro h c hc
    exact h c ((List.dropWhile_sublist isJsWhitespace).mem (List.mem_reverse.mp hc))

/-- C6.  Ingesting a string that is empty or consists only of
whitespace fails with a `ValidationError` (both the `ingestText` guard
in `src/ingest/ingest.ts` and the tokenizer reject it, so no token list
and no document is ever produced, the `Except` carrying no partial
payload); every other input succeeds with a document. -/
theorem ingest_validation :
    ∀ text : Str,
      ((text = [] ∨ ∀ c ∈ text, isJsWhitespace c) →
        tokenize text = Except.error IngestError.validationError ∧
        ingestText text none = Except.error IngestError.validationError) ∧
      (¬(text = [] ∨ ∀ c ∈ text, isJsWhitespace c) →
        ∃ d : DocumentData, ingestText text none = Except.ok d) := by
  intro text
  constructor
  · intro h
    have hcond : text = [] ∨ jsTrim text = [] := by
      rcases h with h | h
      · exact Or.inl h
      · exact Or.inr ((jsTrim_eq_nil_iff text).mpr h)
    constructor
    · unfold tokenize
      rw [if_pos hcond]
    · unfold ingestText
      have hlen : text = [] ∨ (jsTrim text).length = 0 := by
        rcases hcond with h2 | h2
        · exact Or.inl h2
        · exact Or.inr (by rw [h2]; rfl)
      rw [if_pos hlen]
  · intro h
    have h1 : ¬(text = [] ∨ (jsTrim text).length = 0) := by
      intro hc
      apply h
      rcases hc with hc | hc
      · exact Or.inl hc
      · exact Or.inr ((jsTrim_eq_nil_iff text).mp (List.length_eq_zero.mp hc))
    have h2 : ¬(text = [] ∨ jsTrim text = []) := by
      intro hc
      apply h1
      rcases hc with hc | hc
      · exact Or.inl hc
      · exact Or.inr (by rw [hc]; rfl)
    unfold ingestText
    rw [if_neg h1]
    unfold createDocument tokenize
    rw [if_neg h2]
    exact ⟨_, rfl⟩

theorem ingest_validation_witness :
    (tokenize " ".data = Except.error IngestError.validationError ∧
     ingestText " ".data none = Except.error IngestError.validationError) ∧
    ∃ d : DocumentData, ingestText "hi".data none = Except.ok d :=
  ⟨(ingest_validation " ".data).1 (Or.inr (by decide)),
   (ingest_validation "hi".data).2 (by decide)⟩

/-! ## C9: `detectFormat` and `ingestFile` (`src/ingest/ingest.ts`) -/

/-- Embedding of `String.prototype.toLowerCase` (agrees with JavaScript
on the ASCII filenames and extension comparisons at issue here). -/
def jsToLower (cs : Str) : Str := cs.map Char.toLower

/-- The supported file formats (`FileFormat` in `src/ingest/ingest.ts`;
the `Document['format']` union in `src/core/types.ts` also lists
`'txt'`). -/
inductive FileFormat where
  | pdf : FileFormat
  | docx : FileFormat
  | epub : FileFormat
  | txt : FileFormat
deriving DecidableEq, Repr

/-- The last `'.'`-separated segment of the lowercased filename: the
value of `filename.toLowerCase().split('.').pop()` (`pop` on the
never-empty result of `split`). -/
def finalExtLower (filename : Str) : Str :=
  (splitOnChar '.' (jsToLower filename)).getLastD []

/-- From `src/ingest/ingest.ts` lines 6-18: switch on the final
extension; anything other than `pdf`, `docx`, `epub` — including `txt` —
yields `null`. -/
def detectFormat (filename : Str) : Option FileFormat :=
  let ext := finalExtLower filename
  if ext = "pdf".data then some FileFormat.pdf
  else if ext = "docx".data then some FileFormat.docx
  else if ext = "epub".data then some FileFormat.epub
  else none

/-- From `src/ingest/ingest.ts` lines 29-33: the format-detection stage
of `ingestFile` throws `Unsupported file format: <name>` when
`detectFormat` returns `null` (the subsequent text extraction is an
external library effect and is not modelled). -/
def ingestFileFormat (filename : Str) : Except Str FileFormat :=
  match detectFormat filename with
  | none => Except.error ("Unsupported file format: ".data ++ filename)
  | some f => Except.ok f

theorem finalExtLower_dot_txt (a : Str) :
    finalExtLower (a ++ ".txt".data) = "txt".data := by
  unfold finalExtLower jsToLower
  rw [show (".txt".data : Str) = '.' :: "txt".data from rfl, List.map_append]
  rw [show List.map Char.toLower ('.' :: "txt".data) = '.' :: "txt".data from rfl]
  rw [splitOnChar_append]
  rw [splitOnChar_of_not_mem '.' "txt".data (by decide)]
  exact getLastD_append_singleton _ _ _

/-- C9.  `detectFormat` returns `pdf`/`docx`/`epub` exactly when the
filename's final extension (its last `'.'`-separated segment),
lowercased, is `pdf`/`docx`/`epub`, and `null` for every other filename;
it never returns `txt`, so for every filename ending in `.txt` the
result is `null` and `ingestFile` fails with the
`Unsupported file format` error, even though the `Document` data model
and the UI advertise a `txt` format. -/
theorem detectFormat_extensions :
    (∀ fn : Str, detectFormat fn = some FileFormat.pdf ↔ finalExtLower fn = "pdf".data) ∧
    (∀ fn : Str, detectFormat fn = some FileFormat.docx ↔ finalExtLower fn = "docx".data) ∧
    (∀ fn : Str, detectFormat fn = some FileFormat.epub ↔ finalExtLower fn = "epub".data) ∧
    (∀ fn : Str, detectFormat fn = none ↔
      (finalExtLower fn ≠ "pdf".data ∧ finalExtLower fn ≠ "docx".data ∧
       finalExtLower fn ≠ "epub".data)) ∧
    (∀ fn : Str, detectFormat fn ≠ some FileFormat.txt) ∧
    (∀ a : Str, detectFormat (a ++ ".txt".data) = none) ∧
    (∀ a : Str, ingestFileFormat (a ++ ".txt".data) =
      Except.error ("Unsupported file format: ".data ++ (a ++ ".txt".data))) := by
  have hsplit : ∀ fn : Str,
      detectFormat fn = some FileFormat.pdf ↔ finalExtLower fn = "pdf".data := by
    intro fn
    simp only [detectFormat]
    split_ifs with h1 h2 h3 <;> simp_all
  have hdocx : ∀ fn : Str,
      detectFormat fn = some FileFormat.docx ↔ finalExtLower fn = "docx".data := by
    intro fn
    simp only [detectFormat]
    split_ifs with h1 h2 h3 <;> simp_all
  have hepub : ∀ fn : Str,
      detectFormat fn = some FileFormat.epub ↔ finalExtLower fn = "epub".data := by
    intro fn
    simp only [detectFormat]
    split_ifs with h1 h2 h3 <;> simp_all
  have hnone : ∀ fn : Str, detectFormat fn = none ↔
      (finalExtLower fn ≠ "pdf".data ∧ finalExtLower fn ≠ "docx".data ∧
       finalExtLower fn ≠ "epub".data) := by
    intro fn
    simp only [detectFormat]
    split_ifs with h1 h2 h3 <;> simp_all
  have htxtnone : ∀ a : Str, detectFormat (a ++ ".txt".data) = none := by
    intro a
    rw [hnone, finalExtLower_dot_txt]
    refine ⟨by decide, by decide, by decide⟩
  refine ⟨hsplit, hdocx, hepub, hnone, ?_, htxtnone, ?_⟩
  · intro fn hcontra
    simp only [detectFormat] at hcontra
    split_ifs at hcontra <;> simp_all
  · intro a
    unfold ingestFileFormat
    rw [htxtnone a]

/-! ## C8: share-link round trip (`src/storage/documentsRepo.ts`)

`generateShareUrl` builds
`${window.location.origin}/read/${documentId}?${params}` with
`URLSearchParams({doc, pos})`; `parseShareUrl` parses with `new URL`,
matches `/\/read\/([^/]+)/` against the pathname and reads the `pos`
query parameter with `parseInt(pos, 10)`.  The `URL`/`URLSearchParams`
machinery is embedded below at the level the WHATWG URL standard
prescribes for hierarchical `scheme://host/path?query` URLs. -/

/-- Uppercase hexadecimal digits (as produced by `URLSearchParams`
percent-encoding). -/
def hexDigitChar : Nat → Char
  | 0 => '0'
  | 1 => '1'
  | 2 => '2'
  | 3 => '3'
  | 4 => '4'
  | 5 => '5'
  | 6 => '6'
  | 7 => '7'
  | 8 => '8'
  | 9 => '9'
  | 10 => 'A'
  | 11 => 'B'
  | 12 => 'C'
  | 13 => 'D'
  | 14 => 'E'
  | _ => 'F'

/-- Percent-encode one character as the `%XX` sequences of its UTF-8
bytes. -/
def percentEncodeChar (c : Char) : Str :=
  ((String.utf8EncodeChar c).map fun b =>
    ['%', hexDigitChar (b.toNat / 16), hexDigitChar (b.toNat % 16)]).flatten

/-- One character of `application/x-www-form-urlencoded` serialization
(what `URLSearchParams.toString` applies): ASCII alphanumerics and
`* - . _` pass through, space becomes `+`, everything else is
percent-encoded. -/
def formUrlEncodeChar (c : Char) : Str :=
  if c.isAlphanum || c == '*' || c == '-' || c == '.' || c == '_' then [c]
  else if c == ' ' then ['+']
  else percentEncodeChar c

def formUrlEncode (s : Str) : Str := (s.map formUrlEncodeChar).flatten

/-- From `src/storage/documentsRepo.ts` lines 116-122.  The ambient
`window.location.origin` is passed as the `origin` parameter; the query
is the `URLSearchParams({doc: documentId, pos: tokenIndex.toString()})`
serialization. -/
def generateShareUrl (origin : Str) (documentId : Str) (tokenIndex : Nat) : Str :=
  let params :=
    formUrlEncode "doc".data ++ '=' :: formUrlEncode documentId ++
      '&' :: formUrlEncode "pos".data ++ '=' :: formUrlEncode (natToDecimal tokenIndex)
  origin ++ "/read/".data ++ documentId ++ '?' :: params

/-- Value of a hexadecimal digit, `none` for other characters. -/
def hexVal (c : Char) : Option Nat :=
  if '0' ≤ c ∧ c ≤ '9' then some (c.toNat - 48)
  else if 'A' ≤ c ∧ c ≤ 'F' then some (c.toNat - 55)
  else if 'a' ≤ c ∧ c ≤ 'f' then some (c.toNat - 87)
  else none

/-- `application/x-www-form-urlencoded` decoding as `URLSearchParams`
applies to keys and values: `+` becomes space and `%XX` becomes the byte
`XX`; malformed escapes pass through. -/
def formUrlDecodeAux : Nat → Str → Str
  | 0, s => s
  | fuel + 1, s =>
      match s with
      | [] => []
      | c :: rest =>
          if c = '+' then ' ' :: formUrlDecodeAux fuel rest
          else if c = '%' then
            match rest with
            | h1 :: h2 :: rest2 =>
                match hexVal h1, hexVal h2 with
                | some v1, some v2 =>
                    Char.ofNat (16 * v1 + v2) :: formUrlDecodeAux fuel rest2
                | _, _ => c :: formUrlDecodeAux fuel rest
            | _ => c :: formUrlDecodeAux fuel rest
          else c :: formUrlDecodeAux fuel rest

def formUrlDecode (s : Str) : Str := formUrlDecodeAux s.length s

/-- Split one `key=value` query segment at its first `=` and decode both
sides. -/
def parseQueryPair (seg : Str) : Str × Str :=
  (formUrlDecode (seg.takeWhile fun c => c != '='),
   formUrlDecode ((seg.dropWhile fun c => c != '=').drop 1))

/-- `URLSearchParams.get(key)` over a query string: split on `&`, skip
empty segments, return the value of the first pair whose key matches. -/
def searchParamsGet (query : Str) (key : Str) : Option Str :=
  (((splitOnChar '&' query).filter fun seg => !seg.isEmpty).map parseQueryPair
    |>.find? fun p => p.1 == key).map Prod.snd

/-- The stop characters ending the host portion of a hierarchical URL. -/
def isHostEnd (c : Char) : Bool := c == '/' || c == '?' || c == '#'

/-- The stop characters ending the path portion. -/
def isPathEnd (c : Char) : Bool := c == '?' || c == '#'

/-- Embedding of `new URL(url)` for hierarchical `scheme://host...`
URLs, returning `(pathname, query-without-?)`; `none` embeds the
`TypeError` thrown on input without a scheme, which `parseShareUrl`
catches. -/
def parseUrl (url : Str) : Option (Str × Str) :=
  let scheme := url.takeWhile fun c => c != ':'
  let rest := url.dropWhile fun c => c != ':'
  if scheme = [] then none
  else
    match rest with
    | ':' :: '/' :: '/' :: rest2 =>
        let afterHost := rest2.dropWhile fun c => !isHostEnd c
        let path := afterHost.takeWhile fun c => !isPathEnd c
        let afterPath := afterHost.dropWhile fun c => !isPathEnd c
        let query :=
          match afterPath with
          | '?' :: q => q.takeWhile fun c => c != '#'
          | _ => []
        some ((if path = [] then ['/'] else path), query)
    | _ => none

/-- One attempt of the regex `/\/read\/([^/]+)/` at the current
position: the literal `/read/` followed by at least one non-`/`
character; the capture is the maximal non-`/` run. -/
def readSegMatch : Str → Option Str
  | '/' :: 'r' :: 'e' :: 'a' :: 'd' :: '/' :: c :: rest =>
      if c = '/' then none
      else some ((c :: rest).takeWhile fun x => x != '/')
  | _ => none

/-- Regex search: try `readSegMatch` at every position left to right and
return the first capture. -/
def findReadCapture : Str → Option Str
  | [] => none
  | c :: rest =>
      match readSegMatch (c :: rest) with
      | some cap => some cap
      | none => findReadCapture rest

/-- Accumulating decimal parse of a digit run (the digit-consuming core
of `parseInt`). -/
def parseDigits (ds : Str) : Nat :=
  ds.foldl (fun a c => 10 * a + (c.toNat - 48)) 0

/-- Embedding of `parseInt(s, 10)`: skip leading whitespace, take an
optional sign, parse the leading digit run; `none` embeds `NaN`. -/
def jsParseInt (cs : Str) : Option Int :=
  let cs1 := cs.dropWhile isJsWhitespace
  let body := if cs1.headD ' ' = '-' ∨ cs1.headD ' ' = '+' then cs1.tail else cs1
  let ds := body.takeWhile Char.isDigit
  if ds = [] then none
  else if cs1.headD ' ' = '-' then some (-(parseDigits ds : Int))
  else some ((parseDigits ds : Int))

/-- The `{ documentId, tokenIndex }` result of `parseShareUrl`. -/
structure ShareTarget where
  documentId : Str
  tokenIndex : Int
deriving DecidableEq, Repr

/-- From `src/storage/documentsRepo.ts` lines 124-138: parse the URL
(`null` on a parse error), match `/\/read\/([^/]+)/` against the
pathname (`null` when it fails), then read `pos`: a missing or empty
parameter gives index 0, as does a `NaN` parse. -/
def parseShareUrl (url : Str) : Option ShareTarget :=
  match parseUrl url with
  | none => none
  | some (pathname, query) =>
      match findReadCapture pathname with
      | none => none
      | some documentId =>
          let pos := searchParamsGet query "pos".data
          let tokenIndex : Int :=
            match pos with
            | some p => if p = [] then 0 else (jsParseInt p).getD 0
            | none => 0
          some ⟨documentId, tokenIndex⟩

theorem takeWhile_append_of_all {α : Type} (p : α → Bool) (xs ys : List α)
    (h : ∀ x ∈ xs, p x = true) :
    (xs ++ ys).takeWhile p = xs ++ ys.takeWhile p := by
  induction xs with
  | nil => simp
  | cons c rest ih =>
      rw [List.cons_append, List.takeWhile_cons_of_pos (h c (List.mem_cons_self c rest)),
        ih fun x hx => h x (List.mem_cons_of_mem c hx), List.cons_append]

theorem dropWhile_append_of_all {α : Type} (p : α → Bool) (xs ys : List α)
    (h : ∀ x ∈ xs, p x = true) :
    (xs ++ ys).dropWhile p = ys.dropWhile p := by
  induction xs with
  | nil => simp
  | cons c rest ih =>
      rw [List.cons_append, List.dropWhile_cons_of_pos (h c (List.mem_cons_self c rest)),
        ih fun x hx => h x (List.mem_cons_of_mem c hx)]

theorem digitChar_shape (d : Nat) :
    (digitChar d).isDigit = true ∧ (digitChar d).isAlphanum = true ∧
    isJsWhitespace (digitChar d) = false ∧
    digitChar d ≠ '-' ∧ digitChar d ≠ '+' ∧ digitChar d ≠ '/' ∧ digitChar d ≠ '?' ∧
    digitChar d ≠ '#' ∧ digitChar d ≠ '&' ∧ digitChar d ≠ '=' ∧ digitChar d ≠ '%' ∧
    digitChar d ≠ ':' := by
  have h9 : ('9' : Char).isDigit = true ∧ ('9' : Char).isAlphanum = true ∧
      isJsWhitespace '9' = false ∧ ('9' : Char) ≠ '-' ∧ ('9' : Char) ≠ '+' ∧
      ('9' : Char) ≠ '/' ∧ ('9' : Char) ≠ '?' ∧ ('9' : Char) ≠ '#' ∧
      ('9' : Char) ≠ '&' ∧ ('9' : Char) ≠ '=' ∧ ('9' : Char) ≠ '%' ∧
      ('9' : Char) ≠ ':' := by decide
  rcases d with _ | _ | _ | _ | _ | _ | _ | _ | _ | d
  case succ.succ.succ.succ.succ.succ.succ.succ.succ => exact h9
  all_goals decide

theorem natToDecimalAux_mem (fuel n : Nat) :
    ∀ c ∈ natToDecimalAux fuel n, ∃ d : Nat, c = digitChar d := by
  induction fuel generalizing n with
  | zero => intro c hc; simp [natToDecimalAux] at hc
  | succ fuel ih =>
      intro c hc
      unfold natToDecimalAux at hc
      by_cases h : n < 10
      · rw [if_pos h, List.mem_singleton] at hc
        exact ⟨n, hc⟩
      · rw [if_neg h] at hc
        rcases List.mem_append.mp hc with h2 | h2
        · exact ih (n / 10) c h2
        · rw [List.mem_singleton] at h2
          exact ⟨n % 10, h2⟩

theorem natToDecimal_mem (n : Nat) :
    ∀ c ∈ natToDecimal n, ∃ d : Nat, c = digitChar d :=
  natToDecimalAux_mem (n + 1) n

theorem natToDecimalAux_ne_nil (fuel n : Nat) (h : n < fuel) :
    natToDecimalAux fuel n ≠ [] := by
  cases fuel with
  | zero => omega
  | succ fuel =>
      unfold natToDecimalAux
      by_cases h10 : n < 10
      · rw [if_pos h10]
        simp
      · rw [if_neg h10]
        simp

theorem natToDecimal_ne_nil (n : Nat) : natToDecimal n ≠ [] :=
  natToDecimalAux_ne_nil (n + 1) n (by omega)

theorem digitChar_val (d : Nat) (h : d < 10) : (digitChar d).toNat - 48 = d := by
  interval_cases d <;> decide

theorem parseDigits_natToDecimalAux (fuel n : Nat) (h : n < fuel) :
    parseDigits (natToDecimalAux fuel n) = n := by
  induction fuel generalizing n with
  | zero => omega
  | succ fuel ih =>
      unfold natToDecimalAux
      by_cases h10 : n < 10
      · rw [if_pos h10]
        show 10 * 0 + ((digitChar n).toNat - 48) = n
        rw [digitChar_val n h10]
        omega
      · rw [if_neg h10]
        unfold parseDigits
        rw [List.foldl_append]
        have hrec : List.foldl (fun a c => 10 * a + (c.toNat - 48)) 0
            (natToDecimalAux fuel (n / 10)) = n / 10 := ih (n / 10) (by omega)
        rw [hrec]
        show 10 * (n / 10) + ((digitChar (n % 10)).toNat - 48) = n
        rw [digitChar_val (n % 10) (by omega)]
        omega

theorem parseDigits_natToDecimal (n : Nat) : parseDigits (natToDecimal n) = n :=
  parseDigits_natToDecimalAux (n + 1) n (by omega)

/-- A character that is an ASCII alphanumeric or a hyphen is none of
the URL metacharacters. -/
theorem alphanumHyphen_safe (c : Char) (h : c.isAlphanum = true ∨ c = '-') :
    c ≠ ':' ∧ c ≠ '/' ∧ c ≠ '?' ∧ c ≠ '#' ∧ c ≠ '&' ∧ c ≠ '=' ∧ c ≠ '+' ∧ c ≠ '%' := by
  rcases h with h | h
  · refine ⟨?_, ?_, ?_, ?_, ?_, ?_, ?_, ?_⟩ <;>
      (intro he; rw [he] at h; exact absurd h (by decide))
  · subst h
    exact ⟨by decide, by decide, by decide, by decide, by decide, by decide, by decide,
      by decide⟩

theorem formUrlEncodeChar_id (c : Char) (h : c.isAlphanum = true ∨ c = '-') :
    formUrlEncodeChar c = [c] := by
  unfold formUrlEncodeChar
  rcases h with h | h
  · rw [if_pos]
    rw [h]
    rfl
  · subst h
    rfl

theorem formUrlEncode_id (s : Str) (h : ∀ c ∈ s, c.isAlphanum = true ∨ c = '-') :
    formUrlEncode s = s := by
  induction s with
  | nil => rfl
  | cons c rest ih =>
      unfold formUrlEncode
      rw [List.map_cons, List.flatten_cons,
        formUrlEncodeChar_id c (h c (List.mem_cons_self c rest))]
      have := ih fun x hx => h x (List.mem_cons_of_mem c hx)
      unfold formUrlEncode at this
      rw [this]
      rfl

theorem formUrlDecodeAux_id (fuel : Nat) (s : Str) (hlen : s.length ≤ fuel)
    (h : ∀ c ∈ s, c ≠ '+' ∧ c ≠ '%') : formUrlDecodeAux fuel s = s := by
  induction fuel generalizing s with
  | zero => rfl
  | succ fuel ih =>
      cases s with
      | nil => rfl
      | cons c rest =>
          obtain ⟨h1, h2⟩ := h c (List.mem_cons_self c rest)
          show (if c = '+' then _ else _) = c :: rest
          rw [if_neg h1, if_neg h2,
            ih rest (by simpa using Nat.le_of_succ_le_succ (by simpa using hlen))
              fun x hx => h x (List.mem_cons_of_mem c hx)]

theorem formUrlDecode_id (s : Str) (h : ∀ c ∈ s, c ≠ '+' ∧ c ≠ '%') :
    formUrlDecode s = s :=
  formUrlDecodeAux_id s.length s (Nat.le_refl _) h

theorem jsParseInt_natToDecimal (n : Nat) :
    jsParseInt (natToDecimal n) = some (n : Int) := by
  obtain ⟨c, rest, hc⟩ := List.exists_cons_of_ne_nil (natToDecimal_ne_nil n)
  obtain ⟨d, hd⟩ := natToDecimal_mem n c (hc ▸ List.mem_cons_self c rest)
  have hsh := digitChar_shape d
  have hdrop : (natToDecimal n).dropWhile isJsWhitespace = natToDecimal n := by
    rw [hc, List.dropWhile_cons_of_neg]
    rw [hd, hsh.2.2.1]
    simp
  have hhead : (natToDecimal n).headD ' ' = c := by
    rw [hc]
    rfl
  have htake : (natToDecimal n).takeWhile Char.isDigit = natToDecimal n := by
    rw [List.takeWhile_eq_self_iff]
    intro x hx
    obtain ⟨e, he⟩ := natToDecimal_mem n x hx
    rw [he]
    exact (digitChar_shape e).1
  have hsign : ¬((natToDecimal n).headD ' ' = '-' ∨ (natToDecimal n).headD ' ' = '+') := by
    rw [hhead, hd]
    push_neg
    exact ⟨hsh.2.2.2.1, hsh.2.2.2.2.1⟩
  unfold jsParseInt
  simp only [hdrop, if_neg hsign, htake]
  rw [if_neg (by rw [hc]; simp), if_neg (fun hcon => hsign (Or.inl hcon))]
  rw [parseDigits_natToDecimal]

theorem bne_true_of_ne {c x : Char} (h : c ≠ x) : (c != x) = true :=
  bne_iff_ne.mpr h

theorem not_isHostEnd_of (c : Char) (h1 : c ≠ '/') (h2 : c ≠ '?') (h3 : c ≠ '#') :
    (!isHostEnd c) = true := by
  simp [isHostEnd, h1, h2, h3]

theorem not_isPathEnd_of (c : Char) (h2 : c ≠ '?') (h3 : c ≠ '#') :
    (!isPathEnd c) = true := by
  simp [isPathEnd, h2, h3]

/-- The digits of the `pos` parameter are alphanumeric. -/
theorem natToDecimal_alphanum (n : Nat) :
    ∀ c ∈ natToDecimal n, c.isAlphanum = true := by
  intro c hc
  obtain ⟨d, hd⟩ := natToDecimal_mem n c hc
  rw [hd]
  exact (digitChar_shape d).2.1

/-- The digits of the `pos` parameter avoid every relevant
metacharacter. -/
theorem natToDecimal_safe (n : Nat) :
    ∀ c ∈ natToDecimal n,
      c ≠ '&' ∧ c ≠ '#' ∧ c ≠ '=' ∧ c ≠ '+' ∧ c ≠ '%' ∧ c ≠ '/' ∧ c ≠ '?' := by
  intro c hc
  obtain ⟨d, hd⟩ := natToDecimal_mem n c hc
  have hsh := digitChar_shape d
  rw [hd]
  exact ⟨hsh.2.2.2.2.2.2.2.2.1, hsh.2.2.2.2.2.2.2.1, hsh.2.2.2.2.2.2.2.2.2.1,
    hsh.2.2.2.2.1, hsh.2.2.2.2.2.2.2.2.2.2.1, hsh.2.2.2.2.2.1, hsh.2.2.2.2.2.2.1⟩


/-- C8 (amended).  For every well-formed `scheme://host` origin, every
NON-EMPTY document id consisting only of letters, digits and hyphens,
and every natural-number token index,
`parseShareUrl (generateShareUrl origin documentId tokenIndex)` returns
exactly `{ documentId, tokenIndex }`.  (For the empty id the claim as
stated fails: see the counterexample.) -/
theorem shareUrl_roundtrip (scheme host documentId : Str) (tokenIndex : Nat)
    (hs : scheme ≠ [])
    (hsc : ∀ c ∈ scheme, c ≠ ':')
    (hh : ∀ c ∈ host, c ≠ '/' ∧ c ≠ '?' ∧ c ≠ '#')
    (hid : documentId ≠ [])
    (hidc : ∀ c ∈ documentId, c.isAlphanum = true ∨ c = '-') :
    parseShareUrl
        (generateShareUrl (scheme ++ "://".data ++ host) documentId tokenIndex) =
      some ⟨documentId, (tokenIndex : Int)⟩ := by
  have hid_safe : ∀ c ∈ documentId,
      c ≠ ':' ∧ c ≠ '/' ∧ c ≠ '?' ∧ c ≠ '#' ∧ c ≠ '&' ∧ c ≠ '=' ∧ c ≠ '+' ∧ c ≠ '%' :=
    fun c hc => alphanumHyphen_safe c (hidc c hc)
  have hdig := natToDecimal_safe tokenIndex
  set digits := natToDecimal tokenIndex with hdigits
  set qs : Str :=
    "doc".data ++ '=' :: documentId ++ '&' :: "pos".data ++ '=' :: digits with hqs
  set T : Str :=
    host ++ '/' :: 'r' :: 'e' :: 'a' :: 'd' :: '/' :: (documentId ++ '?' :: qs) with hT
  have hurl : generateShareUrl (scheme ++ "://".data ++ host) documentId tokenIndex =
      scheme ++ ':' :: '/' :: '/' :: T := by
    unfold generateShareUrl
    rw [formUrlEncode_id documentId hidc,
      formUrlEncode_id digits fun c hc => Or.inl (natToDecimal_alphanum _ c hc),
      show formUrlEncode "doc".data = "doc".data from by decide,
      show formUrlEncode "pos".data = "pos".data from by decide,
      hT, hqs,
      show ("://".data : Str) = ':' :: '/' :: '/' :: [] from rfl,
      show ("/read/".data : Str) = '/' :: 'r' :: 'e' :: 'a' :: 'd' :: '/' :: [] from rfl]
    simp [List.append_assoc]
  have hscheme_pred : ∀ x ∈ scheme, (x != ':') = true :=
    fun x hx => bne_true_of_ne (hsc x hx)
  have hTake : (scheme ++ ':' :: '/' :: '/' :: T).takeWhile (fun c => c != ':')
      = scheme := by
    rw [takeWhile_append_of_all _ scheme _ hscheme_pred,
      List.takeWhile_cons_of_neg (by decide), List.append_nil]
  have hDrop : (scheme ++ ':' :: '/' :: '/' :: T).dropWhile (fun c => c != ':')
      = ':' :: '/' :: '/' :: T := by
    rw [dropWhile_append_of_all _ scheme _ hscheme_pred,
      List.dropWhile_cons_of_neg (by decide)]
  have hhost_pred : ∀ x ∈ host, (!isHostEnd x) = true := fun x hx =>
    not_isHostEnd_of x (hh x hx).1 (hh x hx).2.1 (hh x hx).2.2
  have hAfterHost : T.dropWhile (fun c => !isHostEnd c) =
      '/' :: 'r' :: 'e' :: 'a' :: 'd' :: '/' :: (documentId ++ '?' :: qs) := by
    rw [hT, dropWhile_append_of_all _ host _ hhost_pred,
      List.dropWhile_cons_of_neg (by decide)]
  have hid_pathPred : ∀ x ∈ documentId, (!isPathEnd x) = true := fun x hx =>
    not_isPathEnd_of x (hid_safe x hx).2.2.1 (hid_safe x hx).2.2.2.1
  have hPath : ('/' :: 'r' :: 'e' :: 'a' :: 'd' :: '/' ::
        (documentId ++ '?' :: qs)).takeWhile (fun c => !isPathEnd c) =
      '/' :: 'r' :: 'e' :: 'a' :: 'd' :: '/' :: documentId := by
    rw [List.takeWhile_cons_of_pos (by decide), List.takeWhile_cons_of_pos (by decide),
      List.takeWhile_cons_of_pos (by decide), List.takeWhile_cons_of_pos (by decide),
      List.takeWhile_cons_of_pos (by decide), List.takeWhile_cons_of_pos (by decide),
      takeWhile_append_of_all _ documentId _ hid_pathPred,
      List.takeWhile_cons_of_neg (by decide), List.append_nil]
  have hAfterPath : ('/' :: 'r' :: 'e' :: 'a' :: 'd' :: '/' ::
        (documentId ++ '?' :: qs)).dropWhile (fun c => !isPathEnd c) = '?' :: qs := by
    rw [List.dropWhile_cons_of_pos (by decide), List.dropWhile_cons_of_pos (by decide),
      List.dropWhile_cons_of_pos (by decide), List.dropWhile_cons_of_pos (by decide),
      List.dropWhile_cons_of_pos (by decide), List.dropWhile_cons_of_pos (by decide),
      dropWhile_append_of_all _ documentId _ hid_pathPred,
      List.dropWhile_cons_of_neg (by decide)]
  have hqs_no_hash : ∀ x ∈ qs, (x != '#') = true := by
    intro x hx
    rw [hqs] at hx
    refine bne_true_of_ne ?_
    rcases List.mem_append.mp hx with h | h
    case inr =>
      rcases List.mem_cons.mp h with h | h
      · subst h
        decide
      · exact (hdig x h).2.1
    rcases List.mem_append.mp h with h | h
    case inr =>
      rcases List.mem_cons.mp h with h | h
      · subst h
        decide
      · exact (by decide : ∀ y ∈ ("pos".data : Str), y ≠ '#') x h
    rcases List.mem_append.mp h with h | h
    · exact (by decide : ∀ y ∈ ("doc".data : Str), y ≠ '#') x h
    · rcases List.mem_cons.mp h with h | h
      · subst h
        decide
      · exact (hid_safe x h).2.2.2.1
  have hQuery : qs.takeWhile (fun c => c != '#') = qs :=
    List.takeWhile_eq_self_iff.mpr hqs_no_hash
  have hparse : parseUrl (scheme ++ ':' :: '/' :: '/' :: T) =
      some ('/' :: 'r' :: 'e' :: 'a' :: 'd' :: '/' :: documentId, qs) := by
    simp only [parseUrl, hTake, hDrop, if_neg hs, hAfterHost, hPath, hAfterPath, hQuery]
    rw [if_neg (by simp)]
  obtain ⟨c0, id0, hid0⟩ := List.exists_cons_of_ne_nil hid
  have hc0 : c0 ≠ '/' := (hid_safe c0 (hid0 ▸ List.mem_cons_self c0 id0)).2.1
  have htakeid : (documentId.takeWhile fun x => x != '/') = documentId :=
    List.takeWhile_eq_self_iff.mpr fun x hx => bne_true_of_ne (hid_safe x hx).2.1
  have hseg : readSegMatch ('/' :: 'r' :: 'e' :: 'a' :: 'd' :: '/' :: documentId) =
      some documentId := by
    rw [hid0]
    show (if c0 = '/' then none
          else some ((c0 :: id0).takeWhile fun x => x != '/')) = some (c0 :: id0)
    rw [if_neg hc0]
    rw [hid0] at htakeid
    rw [htakeid]
  have hfind : findReadCapture ('/' :: 'r' :: 'e' :: 'a' :: 'd' :: '/' :: documentId) =
      some documentId := by
    unfold findReadCapture
    rw [hseg]
  have hq2 : qs =
      ("doc".data ++ '=' :: documentId) ++ '&' :: ("pos".data ++ '=' :: digits) := by
    rw [hqs]
    simp
  have hxs_no_amp : '&' ∉ ("doc".data ++ '=' :: documentId) := by
    intro hmem
    rcases List.mem_append.mp hmem with h | h
    · revert h
      decide
    · rcases List.mem_cons.mp h with h | h
      · revert h
        decide
      · exact (hid_safe '&' h).2.2.2.2.1 rfl
  have hys_no_amp : '&' ∉ ("pos".data ++ '=' :: digits) := by
    intro hmem
    rcases List.mem_append.mp hmem with h | h
    · revert h
      decide
    · rcases List.mem_cons.mp h with h | h
      · revert h
        decide
      · exact (hdig '&' h).1 rfl
  have hpair1 : parseQueryPair ("doc".data ++ '=' :: documentId) =
      ("doc".data, documentId) := by
    unfold parseQueryPair
    rw [takeWhile_append_of_all _ _ _ (by decide), List.takeWhile_cons_of_neg (by decide),
      List.append_nil,
      dropWhile_append_of_all _ _ _ (by decide), List.dropWhile_cons_of_neg (by decide),
      show (('=' :: documentId).drop 1) = documentId from rfl,
      show formUrlDecode "doc".data = "doc".data from by decide,
      formUrlDecode_id documentId fun c hc =>
        ⟨(hid_safe c hc).2.2.2.2.2.2.1, (hid_safe c hc).2.2.2.2.2.2.2⟩]
  have hpair2 : parseQueryPair ("pos".data ++ '=' :: digits) =
      ("pos".data, digits) := by
    unfold parseQueryPair
    rw [takeWhile_append_of_all _ _ _ (by decide), List.takeWhile_cons_of_neg (by decide),
      List.append_nil,
      dropWhile_append_of_all _ _ _ (by decide), List.dropWhile_cons_of_neg (by decide),
      show (('=' :: digits).drop 1) = digits from rfl,
      show formUrlDecode "pos".data = "pos".data from by decide,
      formUrlDecode_id digits fun c hc => ⟨(hdig c hc).2.2.2.1, (hdig c hc).2.2.2.2.1⟩]
  have hsp : searchParamsGet qs "pos".data = some digits := by
    rw [hq2]
    unfold searchParamsGet
    rw [splitOnChar_append, splitOnChar_of_not_mem _ _ hxs_no_amp,
      splitOnChar_of_not_mem _ _ hys_no_amp]
    rw [show ([("doc".data ++ '=' :: documentId)] ++ [("pos".data ++ '=' :: digits)] :
        List Str) =
      [("doc".data ++ '=' :: documentId), ("pos".data ++ '=' :: digits)] from rfl]
    rw [List.filter_cons_of_pos (by rfl), List.filter_cons_of_pos (by rfl),
      List.filter_nil, List.map_cons, List.map_cons, List.map_nil, hpair1, hpair2]
    rfl
  have hdigits_ne : digits ≠ [] := natToDecimal_ne_nil tokenIndex
  rw [hurl]
  simp only [parseShareUrl, hparse, hfind, hsp]
  rw [if_neg hdigits_ne, jsParseInt_natToDecimal]
  rfl

/-- C8 counterexample.  With the empty document id — which consists
only of letters, digits and hyphens vacuously — the generated URL's
pathname is `/read/`, the regex `/\/read\/([^/]+)/` finds no match, and
`parseShareUrl` returns `null` instead of
`{ documentId: "", tokenIndex: 5 }`: the round trip fails. -/
theorem shareUrl_empty_id_fails :
    parseShareUrl (generateShareUrl "https://example.com".data [] 5) = none ∧
    parseShareUrl (generateShareUrl "https://example.com".data [] 5) ≠
      some ⟨[], (5 : Int)⟩ := by
  constructor
  · decide
  · decide

theorem shareUrl_roundtrip_witness :
    parseShareUrl (generateShareUrl
        ("https".data ++ "://".data ++ "example.com".data) "abc-123".data 42) =
      some ⟨"abc-123".data, (42 : Int)⟩ :=
  shareUrl_roundtrip "https".data "example.com".data "abc-123".data 42
    (by decide) (by decide) (by decide) (by decide) (by decide)

theorem empty_engine_noop_witness :
    applyEngineCmd EngineCmd.play (Engine.init [] 7) = Engine.init [] 7 :=
  (empty_engine_noop 7 EngineCmd.play).2.2

theorem detectFormat_extensions_witness :
    detectFormat "Report.PDF".data = some FileFormat.pdf ∧
    detectFormat "notes.txt".data = none := by
  constructor
  · exact (detectFormat_extensions.1 "Report.PDF".data).mpr (by decide)
  · exact detectFormat_extensions.2.2.2.2.2.1 "notes".data
